import Mathlib

/-!
Verification development for the web_fractals_playground repository.

The renderers are shallowly embedded over exact rational arithmetic:
numeric literals of the TypeScript source (0.8, 0.156, 0.4, 0.6, 0.5)
become the corresponding rationals, and the Koch curve (which uses the
irrational Math.sqrt(3)) is embedded polymorphically over an arbitrary
field with a distinguished element standing for Math.sqrt 3.

Sources embedded:
- src/utils/colorUtils.ts            (hsbToRgb)
- src/utils/fractalsRenderer.ts      (drawJuliaSet, drawApollonianRecursive,
                                      drawApollonianGasket, drawKochLine;
                                      the copies in src/components/juliaRenderer.ts,
                                      apolonianGasket.ts and kochRenderer.ts are
                                      textually identical)
- src/utils/thumbnailGenerators.ts   (generateJuliaThumbnail,
                                      generateApollonianThumbnail,
                                      generateKochThumbnail)
- src/components/fractalsPlayground.tsx (handleCanvasClick)
-/

/-- JavaScript truncation toward zero, as used by the JS remainder operator. -/
def jsTrunc (q : ℚ) : ℤ :=
  if 0 ≤ q then ⌊q⌋ else ⌈q⌉

/-- The JavaScript remainder operator on numbers: a % n = a - n * trunc (a / n),
its sign following the dividend. -/
def jsMod (a n : ℚ) : ℚ :=
  a - n * jsTrunc (a / n)

/-- JavaScript Math.round: round half toward positive infinity. -/
def jsRound (q : ℚ) : ℤ :=
  ⌊q + 1 / 2⌋

/-- Chroma from colorUtils.ts: c = (b / 100) * (s / 100). -/
def hsbChroma (s b : ℚ) : ℚ :=
  (b / 100) * (s / 100)

/-- Intermediate value from colorUtils.ts: x = c * (1 - |((h / 60) % 2) - 1|). -/
def hsbX (h s b : ℚ) : ℚ :=
  hsbChroma s b * (1 - |jsMod (h / 60) 2 - 1|)

/-- Match value from colorUtils.ts: m = (b / 100) - c. -/
def hsbMatch (s b : ℚ) : ℚ :=
  b / 100 - hsbChroma s b

/-- The 60-degree-sector selection chain of colorUtils.ts, returning the
pre-match (r, g, b) triple. Hues outside [0, 360) fall to the final else. -/
def hsbSector (h c x : ℚ) : ℚ × ℚ × ℚ :=
  if 0 ≤ h ∧ h < 60 then (c, x, 0)
  else if 60 ≤ h ∧ h < 120 then (x, c, 0)
  else if 120 ≤ h ∧ h < 180 then (0, c, x)
  else if 180 ≤ h ∧ h < 240 then (0, x, c)
  else if 240 ≤ h ∧ h < 300 then (x, 0, c)
  else (c, 0, x)

/-- hsbToRgb from src/utils/colorUtils.ts: select the sector triple, add the
match value, scale by 255 and round. -/
def hsbToRgb (h s b : ℚ) : ℤ × ℤ × ℤ :=
  ((jsRound (((hsbSector h (hsbChroma s b) (hsbX h s b)).1 + hsbMatch s b) * 255)),
   (jsRound (((hsbSector h (hsbChroma s b) (hsbX h s b)).2.1 + hsbMatch s b) * 255)),
   (jsRound (((hsbSector h (hsbChroma s b) (hsbX h s b)).2.2 + hsbMatch s b) * 255)))

/-- Modelled from the spec: outside [0, 360) the hue falls through to the last
(magenta-to-red) sector, whose pre-match triple is (c, 0, x); this definition
follows those words and is compared against hsbToRgb. -/
def hsbLastSector (h s b : ℚ) : ℤ × ℤ × ℤ :=
  ((jsRound ((hsbChroma s b + hsbMatch s b) * 255)),
   (jsRound ((0 + hsbMatch s b) * 255)),
   (jsRound ((hsbX h s b + hsbMatch s b) * 255)))

/-- Squared modulus zx * zx + zy * zy, the escape test quantity of the
while-loop condition of drawJuliaSet. -/
def normSq (z : ℚ × ℚ) : ℚ :=
  z.1 * z.1 + z.2 * z.2

/-- One Julia iteration z ← z² + c with c = (-0.8, 0.156), from the loop body
of drawJuliaSet (xtemp = zx2*zx2 - zy2*zy2 - 0.8; zy2 = 2*zx2*zy2 + 0.156). -/
def juliaStep (z : ℚ × ℚ) : ℚ × ℚ :=
  (z.1 * z.1 - z.2 * z.2 - 0.8, 2 * z.1 * z.2 + 0.156)

/-- The escape-time while loop of drawJuliaSet: iterate while the squared
modulus is below 4 and the iteration count is below the fuel (maxIter);
returns the final iteration count. -/
def juliaCount : ℕ → ℚ × ℚ → ℕ
  | 0, _ => 0
  | fuel + 1, z => if normSq z < 4 then juliaCount fuel (juliaStep z) + 1 else 0

/-- Per-pixel coordinate mapping of drawJuliaSet:
c + ((p / width) - 0.5) * 4 * radius. -/
def juliaMapX (w : ℕ) (c radius : ℚ) (p : ℚ) : ℚ :=
  c + ((p / (w : ℚ)) - 0.5) * 4 * radius

/-- The mapped complex coordinate of pixel (x, y) in drawJuliaSet. -/
def juliaZ (w h : ℕ) (cX cY radius : ℚ) (x y : ℕ) : ℚ × ℚ :=
  (juliaMapX w cX radius (x : ℚ), juliaMapX h cY radius (y : ℚ))

/-- The RGBA value drawJuliaSet writes for pixel (x, y): black when the orbit
survives all 100 iterations, otherwise hsbToRgb ((n/100)*300) 80 90; the
alpha channel is always 255. -/
def juliaPixel (w h : ℕ) (cX cY radius : ℚ) (x y : ℕ) : ℤ × ℤ × ℤ × ℤ :=
  let n := juliaCount 100 (juliaZ w h cX cY radius x y)
  if n = 100 then (0, 0, 0, 255)
  else
    ((hsbToRgb ((n : ℚ) / 100 * 300) 80 90).1,
     (hsbToRgb ((n : ℚ) / 100 * 300) 80 90).2.1,
     (hsbToRgb ((n : ℚ) / 100 * 300) 80 90).2.2, 255)

/-- The click-to-focus inversion of handleCanvasClick in
fractalsPlayground.tsx: newX = ((x / canvas.width) - 0.5) * 4. -/
def clickToFocusX (w : ℕ) (p : ℚ) : ℚ :=
  ((p / (w : ℚ)) - 0.5) * 4

/-- A stroked circle of drawApollonianRecursive: center, radius and the
hue (5 - depth) * 60 of its stroke color. -/
structure ACircle where
  x : ℚ
  y : ℚ
  r : ℚ
  hue : ℚ

/-- drawApollonianRecursive from fractalsRenderer.ts (identical in
apolonianGasket.ts): stop when the depth is exhausted or r < 1; otherwise
stroke the circle at (x, y) with radius r, and when depth > 1 recurse on the
four children at offset 0.4 * r with radius 0.6 * r, in source order
right, left, bottom, top. The JS depth parameter is a non-negative integer
at every call site (initial depth 5, decremented), so it is embedded as ℕ,
on which the guard depth <= 0 is the base pattern 0. -/
def drawApollonianRecursive : ℚ → ℚ → ℚ → ℕ → List ACircle
  | _, _, _, 0 => []
  | x, y, r, d + 1 =>
    if r < 1 then []
    else
      { x := x, y := y, r := r, hue := (5 - ((d : ℚ) + 1)) * 60 } ::
      (if 1 < d + 1 then
        drawApollonianRecursive (x + r * 0.4) y (r * 0.6) d ++
        drawApollonianRecursive (x - r * 0.4) y (r * 0.6) d ++
        drawApollonianRecursive x (y + r * 0.4) (r * 0.6) d ++
        drawApollonianRecursive x (y - r * 0.4) (r * 0.6) d
      else [])

/-- drawApollonianGasket entry point: scale = 300 / radius, start circle at
(centerX * scale + 300, centerY * scale + 300) with radius 100 / radius and
depth 5. -/
def drawApollonianGasket (cX cY radius : ℚ) : List ACircle :=
  drawApollonianRecursive (cX * (300 / radius) + 300) (cY * (300 / radius) + 300)
    (100 / radius) 5

/-- drawKochLine from fractalsRenderer.ts (identical in kochRenderer.ts),
embedded over any field F with s3 standing for the value Math.sqrt(3) and
the source literal 0.5 written 1 / 2. The emitted list collects the
endpoints of the lineTo calls, in emission order. -/
def drawKochLine {F : Type} [Field F] (s3 : F) : F → F → F → F → ℕ → List (F × F)
  | _, _, x2, y2, 0 => [(x2, y2)]
  | x1, y1, x2, y2, d + 1 =>
    let dx := x2 - x1
    let dy := y2 - y1
    let x3 := x1 + dx / 3
    let y3 := y1 + dy / 3
    let x4 := x1 + 2 * dx / 3
    let y4 := y1 + 2 * dy / 3
    let px := x3 + (x4 - x3) * (1 / 2) - (y4 - y3) * s3 / 6
    let py := y3 + (y4 - y3) * (1 / 2) + (x4 - x3) * s3 / 6
    drawKochLine s3 x1 y1 x3 y3 d ++ drawKochLine s3 x3 y3 px py d ++
      drawKochLine s3 px py x4 y4 d ++ drawKochLine s3 x4 y4 x2 y2 d

/-- Fuel-bounded evaluator for the drawKochLine recursion with the JS number
depth embedded as ℤ, exactly as the source recurses (depth === 0 test, four
recursive calls at depth - 1); none means the fuel ran out before the
recursion reached a base case. -/
def drawKochLineFuel {F : Type} [Field F] (s3 : F) : ℕ → F → F → F → F → ℤ →
    Option (List (F × F))
  | 0, _, _, _, _, _ => none
  | fuel + 1, x1, y1, x2, y2, depth =>
    if depth = 0 then some [(x2, y2)]
    else
      let dx := x2 - x1
      let dy := y2 - y1
      let x3 := x1 + dx / 3
      let y3 := y1 + dy / 3
      let x4 := x1 + 2 * dx / 3
      let y4 := y1 + 2 * dy / 3
      let px := x3 + (x4 - x3) * (1 / 2) - (y4 - y3) * s3 / 6
      let py := y3 + (y4 - y3) * (1 / 2) + (x4 - x3) * s3 / 6
      (drawKochLineFuel s3 fuel x1 y1 x3 y3 (depth - 1)).bind fun l1 =>
        (drawKochLineFuel s3 fuel x3 y3 px py (depth - 1)).bind fun l2 =>
          (drawKochLineFuel s3 fuel px py x4 y4 (depth - 1)).bind fun l3 =>
            (drawKochLineFuel s3 fuel x4 y4 x2 y2 (depth - 1)).bind fun l4 =>
              some (l1 ++ l2 ++ l3 ++ l4)

/-- The per-pixel RGBA value of generateJuliaThumbnail from
thumbnailGenerators.ts: map to ((x/w - 0.5)*4, (y/h - 0.5)*4), run the same
escape loop with maxIter 50, then apply the yellow-gradient coloring with
Math.floor. -/
def generateJuliaThumbnailPixel (w h x y : ℕ) : ℤ × ℤ × ℤ × ℤ :=
  let zx : ℚ := ((x : ℚ) / (w : ℚ) - 0.5) * 4
  let zy : ℚ := ((y : ℚ) / (h : ℚ) - 0.5) * 4
  let intensity : ℚ := (juliaCount 50 (zx, zy) : ℚ) / 50
  (⌊(255 : ℚ) * (1 - intensity * 0.5)⌋, ⌊(255 : ℚ) * (1 - intensity * 0.3)⌋,
   ⌊(100 : ℚ) * (1 - intensity)⌋, 255)

/-- generateApollonianThumbnail from thumbnailGenerators.ts: the fixed list
of the four stroked base circles (x, y, r), with centerX = w/2,
centerY = h/2, baseRadius = min w h / 6. -/
def generateApollonianThumbnail (w h : ℚ) : List (ℚ × ℚ × ℚ) :=
  let centerX := w / 2
  let centerY := h / 2
  let baseRadius := min w h / 6
  [(centerX, centerY - baseRadius, baseRadius * 0.8),
   (centerX - baseRadius, centerY + baseRadius * 0.5, baseRadius * 0.8),
   (centerX + baseRadius, centerY + baseRadius * 0.5, baseRadius * 0.8),
   (centerX, centerY + baseRadius * 0.3, baseRadius * 0.4)]

/-- A canvas path command, as emitted by the Koch thumbnail. -/
inductive PathCmd (F : Type) where
  | moveTo (x y : F)
  | lineTo (x y : F)
  | closePath

/-- generateKochThumbnail from thumbnailGenerators.ts: for i = 0..7 compute
the octagon vertex (centerX + cos(i*pi/4) * radius, centerY + sin(i*pi/4) * radius)
and emit moveTo for i = 0, lineTo otherwise, then closePath. The
transcendental vertex direction (cos(i*pi/4), sin(i*pi/4)) is abstracted as
the parameter trig, since those values are irrational; the emitted path
structure is the source's. -/
def generateKochThumbnailPath {F : Type} [LinearOrderedField F] (w h : F)
    (trig : ℕ → F × F) : List (PathCmd F) :=
  let centerX := w / 2
  let centerY := h / 2
  let radius := min w h / 3
  ((List.range 8).map fun i =>
    if i = 0 then PathCmd.moveTo (centerX + (trig i).1 * radius) (centerY + (trig i).2 * radius)
    else PathCmd.lineTo (centerX + (trig i).1 * radius) (centerY + (trig i).2 * radius)) ++
  [PathCmd.closePath]

/-- Number of lineTo commands (straight stroked segments) in a path. -/
def countLineTo {F : Type} : List (PathCmd F) → ℕ
  | [] => 0
  | PathCmd.lineTo _ _ :: rest => countLineTo rest + 1
  | _ :: rest => countLineTo rest

/-! ### Helper lemmas -/

/-- The escape loop performs at most maxIter iterations. -/
theorem juliaCount_le : ∀ (fuel : ℕ) (z : ℚ × ℚ), juliaCount fuel z ≤ fuel
  | 0, _ => le_refl 0
  | fuel + 1, z => by
    simp only [juliaCount]
    split
    · exact Nat.succ_le_succ (juliaCount_le fuel _)
    · exact Nat.zero_le _

/-- Before the final iteration count, the orbit has not yet escaped: the loop
stops at the first escaping index. -/
theorem juliaCount_lt_four : ∀ (fuel : ℕ) (z : ℚ × ℚ) (k : ℕ),
    k < juliaCount fuel z → normSq (juliaStep^[k] z) < 4
  | 0, _, _, h => absurd h (Nat.not_lt_zero _)
  | fuel + 1, z, k, h => by
    revert h
    simp only [juliaCount]
    split
    · rename_i hlt
      intro hk
      match k with
      | 0 => simpa using hlt
      | k + 1 =>
        rw [Function.iterate_succ_apply]
        exact juliaCount_lt_four fuel (juliaStep z) k (by omega)
    · intro hk
      omega

/-- When the loop stops before exhausting maxIter, the orbit has escaped at
the recorded iteration count. -/
theorem juliaCount_escaped : ∀ (fuel : ℕ) (z : ℚ × ℚ),
    juliaCount fuel z < fuel → 4 ≤ normSq (juliaStep^[juliaCount fuel z] z)
  | 0, _, h => absurd h (Nat.lt_irrefl 0)
  | fuel + 1, z, h => by
    revert h
    simp only [juliaCount]
    split
    · intro hk
      rw [Function.iterate_succ_apply]
      exact juliaCount_escaped fuel (juliaStep z) (by omega)
    · rename_i hge
      intro _
      simpa using not_lt.mp hge

/-! ### Claim theorems -/

/-- C1: drawJuliaSet maps pixel (x, y) of a width-by-height surface to
(focusX + ((x/width) - 0.5)*4*radius, focusY + ((y/height) - 0.5)*4*radius),
iterates z to z squared plus c with c = (-0.8, 0.156) starting from that
point, stops at the first iteration count n at which the squared modulus
reaches 4 or at n = 100, writes pure black (0,0,0) when n = 100 and
hsbToRgb ((n/100)*300) 80 90 otherwise, and the alpha channel is 255 in
both cases. -/
theorem julia_pixel_escape_time_render (w h : ℕ) (cX cY radius : ℚ) (x y : ℕ) :
    juliaZ w h cX cY radius x y =
      (cX + (((x : ℚ) / (w : ℚ)) - 0.5) * 4 * radius,
       cY + (((y : ℚ) / (h : ℚ)) - 0.5) * 4 * radius) ∧
    (∀ z : ℚ × ℚ, juliaStep z = (z.1 ^ 2 - z.2 ^ 2 + (-0.8), 2 * z.1 * z.2 + 0.156)) ∧
    juliaCount 100 (juliaZ w h cX cY radius x y) ≤ 100 ∧
    (∀ k < juliaCount 100 (juliaZ w h cX cY radius x y),
      normSq (juliaStep^[k] (juliaZ w h cX cY radius x y)) < 4) ∧
    (juliaCount 100 (juliaZ w h cX cY radius x y) < 100 →
      4 ≤ normSq (juliaStep^[juliaCount 100 (juliaZ w h cX cY radius x y)]
            (juliaZ w h cX cY radius x y))) ∧
    juliaPixel w h cX cY radius x y =
      (if juliaCount 100 (juliaZ w h cX cY radius x y) = 100 then
        ((0 : ℤ), (0 : ℤ), (0 : ℤ), (255 : ℤ))
       else
        ((hsbToRgb ((juliaCount 100 (juliaZ w h cX cY radius x y) : ℚ) / 100 * 300) 80 90).1,
         (hsbToRgb ((juliaCount 100 (juliaZ w h cX cY radius x y) : ℚ) / 100 * 300) 80 90).2.1,
         (hsbToRgb ((juliaCount 100 (juliaZ w h cX cY radius x y) : ℚ) / 100 * 300) 80 90).2.2,
         (255 : ℤ))) := by
  refine ⟨rfl, ?_, juliaCount_le 100 _, fun k hk => juliaCount_lt_four 100 _ k hk,
    juliaCount_escaped 100 _, rfl⟩
  intro z
  simp only [juliaStep, Prod.mk.injEq]
  exact ⟨by ring, trivial⟩

/-- C9: a pixel whose mapped coordinate already has squared modulus at least
4 records iteration count 0, is colored hsbToRgb 0 80 90, and is never
painted black, because the escape test runs before the first iteration. -/
theorem julia_escape_before_first_iteration (w h : ℕ) (cX cY radius : ℚ) (x y : ℕ)
    (hesc : 4 ≤ normSq (juliaZ w h cX cY radius x y)) :
    juliaCount 100 (juliaZ w h cX cY radius x y) = 0 ∧
    juliaPixel w h cX cY radius x y =
      ((hsbToRgb 0 80 90).1, (hsbToRgb 0 80 90).2.1, (hsbToRgb 0 80 90).2.2, 255) ∧
    juliaPixel w h cX cY radius x y ≠ (0, 0, 0, 255) := by
  have h0 : juliaCount 100 (juliaZ w h cX cY radius x y) = 0 := by
    have hunfold : juliaCount 100 (juliaZ w h cX cY radius x y) =
        if normSq (juliaZ w h cX cY radius x y) < 4 then
          juliaCount 99 (juliaStep (juliaZ w h cX cY radius x y)) + 1
        else 0 := rfl
    rw [hunfold, if_neg (not_lt.mpr hesc)]
  have hc : hsbToRgb 0 80 90 = (230, 46, 46) := by
    norm_num [hsbToRgb, hsbSector, hsbChroma, hsbX, hsbMatch, jsRound, jsMod, jsTrunc]
  refine ⟨h0, ?_, ?_⟩
  · simp only [juliaPixel, h0]
    norm_num
  · simp only [juliaPixel, h0]
    norm_num [hc]

/-- C9 witness: at w = h = 2, focus (2, 0), radius 1, pixel (1, 1) the
mapped coordinate is (2, 0), whose squared modulus is 4. -/
theorem julia_escape_before_first_iteration_witness :
    4 ≤ normSq (juliaZ 2 2 2 0 1 1 1) ∧
    (juliaCount 100 (juliaZ 2 2 2 0 1 1 1) = 0 ∧
     juliaPixel 2 2 2 0 1 1 1 =
       ((hsbToRgb 0 80 90).1, (hsbToRgb 0 80 90).2.1, (hsbToRgb 0 80 90).2.2, 255) ∧
     juliaPixel 2 2 2 0 1 1 1 ≠ (0, 0, 0, 255)) :=
  ⟨by norm_num [normSq, juliaZ, juliaMapX],
   julia_escape_before_first_iteration 2 2 2 0 1 1 1
     (by norm_num [normSq, juliaZ, juliaMapX])⟩

/-- C4: hsbToRgb at full saturation and brightness returns the six
primary and secondary colors at the exact 60-degree hue boundaries. -/
theorem hsb_primary_secondary_colors :
    hsbToRgb 0 100 100 = (255, 0, 0) ∧ hsbToRgb 60 100 100 = (255, 255, 0) ∧
    hsbToRgb 120 100 100 = (0, 255, 0) ∧ hsbToRgb 180 100 100 = (0, 255, 255) ∧
    hsbToRgb 240 100 100 = (0, 0, 255) ∧ hsbToRgb 300 100 100 = (255, 0, 255) := by
  norm_num [hsbToRgb, hsbSector, hsbChroma, hsbX, hsbMatch, jsRound, jsMod, jsTrunc]

/-- C7: the click-to-focus inversion of handleCanvasClick equals the
per-pixel forward mapping of drawJuliaSet evaluated at focus 0 and
radius 1, so composing the inversion with the forward mapping at radius 1
returns the pixel's mathematical coordinate. -/
theorem click_to_focus_inverts_forward_map (w : ℕ) (p : ℚ) :
    clickToFocusX w p = juliaMapX w 0 1 p := by
  unfold clickToFocusX juliaMapX
  ring

/-- Out-of-range hues fail every guarded sector test and fall through to the
final else of the sector chain. -/
theorem hsbSector_out_of_range (h c x : ℚ) (hh : h < 0 ∨ 360 ≤ h) :
    hsbSector h c x = (c, 0, x) := by
  unfold hsbSector
  rcases hh with h1 | h1 <;>
    rw [if_neg (by rintro ⟨a, b⟩; linarith), if_neg (by rintro ⟨a, b⟩; linarith),
      if_neg (by rintro ⟨a, b⟩; linarith), if_neg (by rintro ⟨a, b⟩; linarith),
      if_neg (by rintro ⟨a, b⟩; linarith)]

/-- C8: hsbToRgb is a total function (it is defined for every rational hue,
saturation and brightness, with no error branch), and every hue below 0 or
at least 360 selects the last 60-degree sector, returning the
magenta-to-red pre-match triple (c, 0, x) plus the match value. -/
theorem hsb_out_of_range_falls_to_last_sector (h s b : ℚ) (hh : h < 0 ∨ 360 ≤ h) :
    hsbToRgb h s b = hsbLastSector h s b := by
  unfold hsbToRgb hsbLastSector
  rw [hsbSector_out_of_range h _ _ hh]

/-- C8 witness: hue 400 lies outside the documented range and is mapped
through the last sector. -/
theorem hsb_out_of_range_witness :
    ((400 : ℚ) < 0 ∨ (360 : ℚ) ≤ 400) ∧ hsbToRgb 400 80 90 = hsbLastSector 400 80 90 :=
  ⟨Or.inr (by norm_num),
   hsb_out_of_range_falls_to_last_sector 400 80 90 (Or.inr (by norm_num))⟩

/-- The circle count emitted by drawApollonianRecursive depends only on the
radius and the depth, not on the center position. -/
theorem drawApollonianRecursive_length_center_indep :
    ∀ (d : ℕ) (x y x' y' r : ℚ),
      (drawApollonianRecursive x y r d).length = (drawApollonianRecursive x' y' r d).length
  | 0, _, _, _, _, _ => rfl
  | d + 1, x, y, x', y', r => by
    simp only [drawApollonianRecursive]
    split
    · rfl
    · split
      · simp only [List.length_cons, List.length_append]
        rw [drawApollonianRecursive_length_center_indep d (x + r * 0.4) y (x' + r * 0.4) y',
          drawApollonianRecursive_length_center_indep d (x - r * 0.4) y (x' - r * 0.4) y',
          drawApollonianRecursive_length_center_indep d x (y + r * 0.4) x' (y' + r * 0.4),
          drawApollonianRecursive_length_center_indep d x (y - r * 0.4) x' (y' - r * 0.4)]
      · rfl

/-- The circle count emitted by drawApollonianRecursive is 0 (pruned) or
congruent to 1 modulo 4 (one parent plus four equal-sized child batches). -/
theorem drawApollonianRecursive_length_mod (d : ℕ) (x y r : ℚ) :
    (drawApollonianRecursive x y r d).length = 0 ∨
    (drawApollonianRecursive x y r d).length % 4 = 1 := by
  match d with
  | 0 => exact Or.inl rfl
  | d + 1 =>
    simp only [drawApollonianRecursive]
    split
    · exact Or.inl rfl
    · right
      split
      · simp only [List.length_cons, List.length_append]
        rw [drawApollonianRecursive_length_center_indep d (x + r * 0.4) y x y,
          drawApollonianRecursive_length_center_indep d (x - r * 0.4) y x y,
          drawApollonianRecursive_length_center_indep d x (y + r * 0.4) x y,
          drawApollonianRecursive_length_center_indep d x (y - r * 0.4) x y]
        omega
      · simp

/-- When the deepest generation's radius r * 0.6 ^ d still meets the radius
floor, no branch is pruned and the recursion at depth d + 1 emits the full
quadtree of circles: 3 * count + 1 = 4 ^ (d + 1). -/
theorem drawApollonianRecursive_no_prune :
    ∀ (d : ℕ) (x y r : ℚ), 1 ≤ r * 0.6 ^ d →
      3 * (drawApollonianRecursive x y r (d + 1)).length + 1 = 4 ^ (d + 1)
  | 0, x, y, r, hr => by
    have hr1 : (1 : ℚ) ≤ r := by simpa using hr
    simp only [drawApollonianRecursive]
    rw [if_neg (not_lt.mpr hr1), if_neg (by omega : ¬ (1 < 0 + 1))]
    simp
  | d + 1, x, y, r, hr => by
    have hp : (0 : ℚ) < 0.6 ^ (d + 1) := by positivity
    have hple : (0.6 : ℚ) ^ (d + 1) ≤ 1 := pow_le_one₀ (by norm_num) (by norm_num)
    have hrpos : (0 : ℚ) < r := by nlinarith
    have hr1 : (1 : ℚ) ≤ r := by nlinarith
    have hchild : 1 ≤ r * 0.6 * 0.6 ^ d := by
      have hre : r * 0.6 * 0.6 ^ d = r * 0.6 ^ (d + 1) := by ring
      rw [hre]
      exact hr
    rw [drawApollonianRecursive]
    rw [if_neg (not_lt.mpr hr1), if_pos (by omega : 1 < d + 1 + 1)]
    simp only [List.length_cons, List.length_append]
    have h1 := drawApollonianRecursive_no_prune d (x + r * 0.4) y (r * 0.6) hchild
    have h2 := drawApollonianRecursive_no_prune d (x - r * 0.4) y (r * 0.6) hchild
    have h3 := drawApollonianRecursive_no_prune d x (y + r * 0.4) (r * 0.6) hchild
    have h4 := drawApollonianRecursive_no_prune d x (y - r * 0.4) (r * 0.6) hchild
    have hpow : (4 : ℕ) ^ (d + 1 + 1) = 4 * 4 ^ (d + 1) := by ring
    omega

/-- C2: started with radius r0 and depth 5, the circle-packing recursion
emits exactly 1 + 4 + 16 + 64 + 256 = 341 circles whenever the radius floor
prunes nothing, that is when r0 * 0.6 ^ 4 is at least 1; and at r0 = 2 the
floor engages (the grandchild radius 0.72 falls below 1) and strictly fewer
circles are emitted. -/
theorem apollonian_depth5_circle_count :
    (∀ x y r : ℚ, 1 ≤ r * 0.6 ^ 4 → (drawApollonianRecursive x y r 5).length = 341) ∧
    (drawApollonianRecursive 0 0 2 5).length < 341 := by
  constructor
  · intro x y r hr
    have h := drawApollonianRecursive_no_prune 4 x y r hr
    norm_num at h
    omega
  · have h5 : (drawApollonianRecursive 0 0 2 5).length = 5 := by
      norm_num [drawApollonianRecursive]
    omega

/-- C2 witness: r0 = 8 satisfies the no-pruning bound, and the count is
then 341. -/
theorem apollonian_depth5_circle_count_witness :
    1 ≤ (8 : ℚ) * 0.6 ^ 4 ∧ (drawApollonianRecursive 0 0 8 5).length = 341 :=
  ⟨by norm_num, apollonian_depth5_circle_count.1 0 0 8 (by norm_num)⟩

/-- A Koch line at depth d emits exactly 4 ^ d straight sub-segments. -/
theorem drawKochLine_length {F : Type} [Field F] (s3 : F) :
    ∀ (d : ℕ) (x1 y1 x2 y2 : F), (drawKochLine s3 x1 y1 x2 y2 d).length = 4 ^ d
  | 0, _, _, _, _ => rfl
  | d + 1, x1, y1, x2, y2 => by
    simp only [drawKochLine, List.length_append, drawKochLine_length s3 d]
    ring

/-- C5: for every pair of endpoints and every non-negative depth d, the Koch
subdivision emits exactly 4 ^ d straight sub-segments; at depth 0 it emits
exactly the one straight segment ending at the original endpoint, with no
subdivision. -/
theorem koch_segment_count (F : Type) [Field F] (s3 x1 y1 x2 y2 : F) :
    (∀ d : ℕ, (drawKochLine s3 x1 y1 x2 y2 d).length = 4 ^ d) ∧
    drawKochLine s3 x1 y1 x2 y2 0 = [(x2, y2)] :=
  ⟨fun d => drawKochLine_length s3 d x1 y1 x2 y2, rfl⟩

/-- C6: at depth d + 1 the Koch step splits the segment at P1 (one third
along) and P2 (two thirds along), erects the apex
P1 + 0.5 (P2 - P1) + rot90 (P2 - P1) * (sqrt 3 / 6) with
rot90 (vx, vy) = (-vy, vx), and recurses on (start, P1), (P1, apex),
(apex, P2), (P2, end) at depth d, every call with the same rotation sign
(the single constant s3 = Math.sqrt 3). -/
theorem koch_subdivision_step (F : Type) [Field F] (s3 x1 y1 x2 y2 : F) (d : ℕ) :
    drawKochLine s3 x1 y1 x2 y2 (d + 1) =
      drawKochLine s3 x1 y1 (x1 + (x2 - x1) / 3) (y1 + (y2 - y1) / 3) d ++
      drawKochLine s3 (x1 + (x2 - x1) / 3) (y1 + (y2 - y1) / 3)
        (x1 + (x2 - x1) / 3 + (x1 + 2 * (x2 - x1) / 3 - (x1 + (x2 - x1) / 3)) * (1 / 2) +
          -(y1 + 2 * (y2 - y1) / 3 - (y1 + (y2 - y1) / 3)) * (s3 / 6))
        (y1 + (y2 - y1) / 3 + (y1 + 2 * (y2 - y1) / 3 - (y1 + (y2 - y1) / 3)) * (1 / 2) +
          (x1 + 2 * (x2 - x1) / 3 - (x1 + (x2 - x1) / 3)) * (s3 / 6)) d ++
      drawKochLine s3
        (x1 + (x2 - x1) / 3 + (x1 + 2 * (x2 - x1) / 3 - (x1 + (x2 - x1) / 3)) * (1 / 2) +
          -(y1 + 2 * (y2 - y1) / 3 - (y1 + (y2 - y1) / 3)) * (s3 / 6))
        (y1 + (y2 - y1) / 3 + (y1 + 2 * (y2 - y1) / 3 - (y1 + (y2 - y1) / 3)) * (1 / 2) +
          (x1 + 2 * (x2 - x1) / 3 - (x1 + (x2 - x1) / 3)) * (s3 / 6))
        (x1 + 2 * (x2 - x1) / 3) (y1 + 2 * (y2 - y1) / 3) d ++
      drawKochLine s3 (x1 + 2 * (x2 - x1) / 3) (y1 + 2 * (y2 - y1) / 3) x2 y2 d := by
  have hax : x1 + (x2 - x1) / 3 + (x1 + 2 * (x2 - x1) / 3 - (x1 + (x2 - x1) / 3)) * (1 / 2) +
      -(y1 + 2 * (y2 - y1) / 3 - (y1 + (y2 - y1) / 3)) * (s3 / 6) =
      x1 + (x2 - x1) / 3 + (x1 + 2 * (x2 - x1) / 3 - (x1 + (x2 - x1) / 3)) * (1 / 2) -
      (y1 + 2 * (y2 - y1) / 3 - (y1 + (y2 - y1) / 3)) * s3 / 6 := by ring
  have hay : y1 + (y2 - y1) / 3 + (y1 + 2 * (y2 - y1) / 3 - (y1 + (y2 - y1) / 3)) * (1 / 2) +
      (x1 + 2 * (x2 - x1) / 3 - (x1 + (x2 - x1) / 3)) * (s3 / 6) =
      y1 + (y2 - y1) / 3 + (y1 + 2 * (y2 - y1) / 3 - (y1 + (y2 - y1) / 3)) * (1 / 2) +
      (x1 + 2 * (x2 - x1) / 3 - (x1 + (x2 - x1) / 3)) * s3 / 6 := by ring
  rw [hax, hay]
  simp only [drawKochLine]

/-- C10: for every pair of endpoints and every non-negative integer depth d,
the drawKochLine recursion terminates: the fuel-bounded evaluator of the
source recursion (integer depth, base case only at depth exactly 0, each
call decreasing depth by 1) succeeds with any fuel exceeding d and returns
the total function drawKochLine. -/
theorem koch_recursion_terminates (F : Type) [Field F] (s3 : F) (d : ℕ) :
    ∀ (fuel : ℕ) (x1 y1 x2 y2 : F), d < fuel →
      drawKochLineFuel s3 fuel x1 y1 x2 y2 (d : ℤ) =
        some (drawKochLine s3 x1 y1 x2 y2 d) := by
  induction d with
  | zero =>
    intro fuel x1 y1 x2 y2 hf
    match fuel, hf with
    | f + 1, _ =>
      simp [drawKochLineFuel, drawKochLine]
  | succ d ih =>
    intro fuel x1 y1 x2 y2 hf
    match fuel, hf with
    | f + 1, hf =>
      have hd : d < f := by omega
      have ih4 : ∀ a b c e : F,
          drawKochLineFuel s3 f a b c e ((d : ℕ) : ℤ) =
            some (drawKochLine s3 a b c e d) :=
        fun a b c e => ih f a b c e hd
      have hne : ((d + 1 : ℕ) : ℤ) ≠ 0 := by exact_mod_cast Nat.succ_ne_zero d
      have hcast : ((d + 1 : ℕ) : ℤ) - 1 = ((d : ℕ) : ℤ) := by push_cast; ring
      simp only [drawKochLineFuel, if_neg hne, hcast, ih4, Option.some_bind]
      simp only [drawKochLine]

/-- C10 witness: with fuel 2 the evaluator completes depth 1 on the segment
(0,0)-(1,0) over the rationals. -/
theorem koch_recursion_terminates_witness :
    1 < 2 ∧ drawKochLineFuel (0 : ℚ) 2 0 0 1 0 ((1 : ℕ) : ℤ) =
      some (drawKochLine (0 : ℚ) 0 0 1 0 1) :=
  ⟨by norm_num, koch_recursion_terminates ℚ 0 1 2 0 0 1 0 (by norm_num)⟩

/-- The Koch thumbnail path contains exactly 7 lineTo commands (the other
octagon edges being the initial moveTo and the final closePath). -/
theorem generateKochThumbnailPath_lineTo_count {F : Type} [LinearOrderedField F]
    (w h : F) (trig : ℕ → F × F) :
    countLineTo (generateKochThumbnailPath w h trig) = 7 := by
  have h8 : List.range 8 = [0, 1, 2, 3, 4, 5, 6, 7] := rfl
  simp [generateKochThumbnailPath, h8, countLineTo]

/-- C3 counterexample: at thumbnail size 600 x 600 the Apollonian thumbnail
emits exactly 4 circles, but the recursive quad-offset recurrence of the
main circle-packing generator can never emit exactly 4 circles at any
center, radius or depth (its count is 0 or congruent to 1 modulo 4), so the
thumbnail does not emit circles by that recurrence. -/
theorem apollonian_thumbnail_not_recursive :
    (generateApollonianThumbnail 600 600).length = 4 ∧
    ∀ (x y r : ℚ) (d : ℕ), (drawApollonianRecursive x y r d).length ≠ 4 := by
  refine ⟨rfl, fun x y r d h4 => ?_⟩
  rcases drawApollonianRecursive_length_mod d x y r with h | h <;> omega

/-- C3 amended: the Julia thumbnail shares the pixel mapping (at focus
(0, 0), radius 1) and the escape-time iteration with the main generator,
with maxIter 50 and its own yellow-gradient coloring; the Apollonian
thumbnail draws a fixed list of exactly 4 base circles rather than the
recursive quad-offset recurrence; the Koch thumbnail strokes the plain
octagon as 7 straight lineTo edges plus closePath, with no Koch
subdivision, while each main-generator edge at depth 3 emits 4 ^ 3
sub-segments. -/
theorem thumbnail_formula_sharing :
    (∀ w h x y : ℕ, generateJuliaThumbnailPixel w h x y =
      (⌊(255 : ℚ) * (1 - (juliaCount 50 (juliaZ w h 0 0 1 x y) : ℚ) / 50 * 0.5)⌋,
       ⌊(255 : ℚ) * (1 - (juliaCount 50 (juliaZ w h 0 0 1 x y) : ℚ) / 50 * 0.3)⌋,
       ⌊(100 : ℚ) * (1 - (juliaCount 50 (juliaZ w h 0 0 1 x y) : ℚ) / 50)⌋, 255)) ∧
    (∀ w h : ℚ, (generateApollonianThumbnail w h).length = 4) ∧
    (∀ (F : Type) [LinearOrderedField F] (w h : F) (trig : ℕ → F × F),
      countLineTo (generateKochThumbnailPath w h trig) = 7) ∧
    (∀ (F : Type) [Field F] (s3 x1 y1 x2 y2 : F),
      (drawKochLine s3 x1 y1 x2 y2 3).length = 4 ^ 3) := by
  refine ⟨?_, fun w h => rfl, ?_, ?_⟩
  · intro w h x y
    have hz : juliaZ w h 0 0 1 x y =
        (((x : ℚ) / (w : ℚ) - 0.5) * 4, ((y : ℚ) / (h : ℚ) - 0.5) * 4) := by
      unfold juliaZ juliaMapX
      rw [Prod.mk.injEq]
      exact ⟨by ring, by ring⟩
    rw [hz]
    rfl
  · exact fun F inst w h trig => generateKochThumbnailPath_lineTo_count w h trig
  · exact fun F inst s3 x1 y1 x2 y2 => drawKochLine_length s3 3 x1 y1 x2 y2
